import Mathlib

/-
Shallow embedding of src/src/u64_goldilocks.rs: the Goldilocks field element
over a raw u64 base type, its arithmetic kernel, inversion/division, and the
byte/hex codec. Machine u64 values are modelled as Nat; native u64 arithmetic
wraps modulo 2^64 when it overflows (release builds; debug builds abort on
the same inputs), modelled by an explicit reduction modulo U64. A Rust abort
is modelled by an Option result of none.
-/

/-- The Goldilocks prime, p = 2^64 - 2^32 + 1 (source constant MODULUS). -/
def MODULUS : Nat := 0xffffffff00000001

/-- Size of the u64 machine word: native u64 arithmetic wraps modulo this value. -/
def U64 : Nat := 2 ^ 64

/-- Field errors of the external errors module; only zero inversion is used. -/
inductive FieldError where
  | invZeroError
  deriving DecidableEq

/-- Element creation errors; only the invalid hex string case is used. -/
inductive CreationError where
  | invalidHexString
  deriving DecidableEq

/-- Byte conversion errors of the external errors module. -/
inductive ByteConversionError where
  | fromBEBytesError
  | fromLEBytesError
  deriving DecidableEq

namespace GoldilocksField

/-- Source fn from(a): reduce on construction when the argument is at least
MODULUS (the source name from is a reserved word in Lean). -/
def fromRaw (a : Nat) : Nat :=
  if MODULUS ≤ a then a % MODULUS else a

/-- Source fn new(a): same reduction as construction, returning the base type. -/
def new (a : Nat) : Nat :=
  if MODULUS ≤ a then a % MODULUS else a

/-- Source fn generator. -/
def generator : Nat := 7

/-- Source fn add: (a + b) % MODULUS, where the native u64 addition wraps
modulo 2^64 on overflow. -/
def add (a b : Nat) : Nat := ((a + b) % U64) % MODULUS

/-- Source fn sub: (a + MODULUS - b) % MODULUS, where both the native u64
addition and the native u64 subtraction wrap modulo 2^64. -/
def sub (a b : Nat) : Nat := ((((a + MODULUS) % U64) + (U64 - b)) % U64) % MODULUS

/-- Source fn neg: (MODULUS - a) % MODULUS, where the native u64 subtraction
wraps modulo 2^64 when a exceeds MODULUS. -/
def neg (a : Nat) : Nat := ((MODULUS + (U64 - a)) % U64) % MODULUS

/-- Source fn mul: (a * b) % MODULUS, where the native u64 multiplication
wraps modulo 2^64 on overflow. -/
def mul (a b : Nat) : Nat := ((a * b) % U64) % MODULUS

/-- Modelled from the spec: the source calls the default pow of the external
field trait, whose code is not part of this repository; the spec describes it
as square-and-multiply over the bits of the 64-bit exponent, with every
squaring and combining step performed by this field mul. The fuel argument
counts the 64 exponent bits still to process. -/
def powBits : Nat → Nat → Nat → Nat → Nat
  | 0, _, _, acc => acc
  | fuel + 1, base, e, acc =>
      powBits fuel (mul base base) (e / 2) (if e % 2 = 1 then mul acc base else acc)

/-- Modelled from the spec: square-and-multiply exponentiation over the 64
bits of the exponent, built on the kernel mul. -/
def pow (a e : Nat) : Nat := powBits 64 a e 1

/-- Source fn inv: InvZeroError when the raw value is 0, else pow(a, MODULUS - 2). -/
def inv (a : Nat) : Except FieldError Nat :=
  if a = 0 then Except.error FieldError.invZeroError
  else Except.ok (pow a (MODULUS - 2))

/-- Source fn div: mul(a, inv(b).unwrap()). The unwrap aborts the program when
inv returns an error; the abort is modelled by none. -/
def div (a b : Nat) : Option Nat :=
  match inv b with
  | Except.error _ => none
  | Except.ok v => some (mul a v)

/-- Source fn from_u64: reduce modulo MODULUS. -/
def from_u64 (x : Nat) : Nat := x % MODULUS

/-- Source fn from_base_type. -/
def from_base_type (x : Nat) : Nat := from_u64 x

/-- Source fn eq: equality of canonical forms. -/
def eq (a b : Nat) : Bool := decide (from_u64 a = from_u64 b)

/-- Source fn zero. -/
def zero : Nat := 0

/-- Source fn one. -/
def one : Nat := 1

/-- Source fn representative: returns the raw stored integer unchanged. -/
def representative (a : Nat) : Nat := a

/-- Source fn field_bit_size: ilog2(MODULUS - 1) + 1. -/
def field_bit_size : Nat := Nat.log2 (MODULUS - 1) + 1

/-- Byte decomposition of a u64 value, most significant byte first
(u64::to_be_bytes). -/
def u64_to_be_bytes (v : Nat) : List Nat :=
  [v / 2 ^ 56 % 256, v / 2 ^ 48 % 256, v / 2 ^ 40 % 256, v / 2 ^ 32 % 256,
   v / 2 ^ 24 % 256, v / 2 ^ 16 % 256, v / 2 ^ 8 % 256, v % 256]

/-- Byte decomposition of a u64 value, least significant byte first
(u64::to_le_bytes). -/
def u64_to_le_bytes (v : Nat) : List Nat :=
  [v % 256, v / 2 ^ 8 % 256, v / 2 ^ 16 % 256, v / 2 ^ 24 % 256,
   v / 2 ^ 32 % 256, v / 2 ^ 40 % 256, v / 2 ^ 48 % 256, v / 2 ^ 56 % 256]

/-- Recomposition of a u64 from bytes in big-endian order (u64::from_be_bytes). -/
def u64_from_be_bytes (bs : List Nat) : Nat := bs.foldl (fun acc b => acc * 256 + b) 0

/-- Recomposition of a u64 from bytes in little-endian order (u64::from_le_bytes). -/
def u64_from_le_bytes (bs : List Nat) : Nat := bs.foldr (fun b acc => acc * 256 + b) 0

/-- Source to_bytes_be: the 8 big-endian bytes of the raw stored value, with no
canonicalization. -/
def to_bytes_be (v : Nat) : List Nat := u64_to_be_bytes v

/-- Source to_bytes_le: the 8 little-endian bytes of the raw stored value. -/
def to_bytes_le (v : Nat) : List Nat := u64_to_le_bytes v

/-- Source from_bytes_be: the slice expression bytes[0..8] aborts (index out of
range) when fewer than 8 bytes are supplied, modelled by none; otherwise the
first 8 bytes are decoded big-endian and stored raw. The try_into failure
mapped to FromBEBytesError can never fire, because the slice taken has length
exactly 8. -/
def from_bytes_be (bytes : List Nat) : Option (Except ByteConversionError Nat) :=
  if 8 ≤ bytes.length then some (Except.ok (u64_from_be_bytes (bytes.take 8))) else none

/-- Source from_bytes_le: little-endian version of from_bytes_be, with the same
abort on inputs shorter than 8 bytes and the same dead FromLEBytesError path. -/
def from_bytes_le (bytes : List Nat) : Option (Except ByteConversionError Nat) :=
  if 8 ≤ bytes.length then some (Except.ok (u64_from_le_bytes (bytes.take 8))) else none

/-- Source serialize: big-endian encoding. -/
def serialize (v : Nat) : List Nat := to_bytes_be v

/-- Source deserialize: big-endian decoding (the error conversion into
DeserializationError is not modelled; the error path is dead anyway). -/
def deserialize (bytes : List Nat) : Option (Except ByteConversionError Nat) :=
  from_bytes_be bytes

/-- UTF-8 encoded size in bytes of one character. -/
def utf8Size (c : Char) : Nat :=
  if c.toNat < 0x80 then 1 else if c.toNat < 0x800 then 2
  else if c.toNat < 0x10000 then 3 else 4

/-- Byte length of a string (Rust str::len counts UTF-8 bytes); strings are
modelled as lists of characters. -/
def byteLen (s : List Char) : Nat := (s.map utf8Size).sum

/-- Hexadecimal value of one character (char::to_digit with radix 16). -/
def hexDigit? (c : Char) : Option Nat :=
  if '0' ≤ c ∧ c ≤ '9' then some (c.toNat - '0'.toNat)
  else if 'a' ≤ c ∧ c ≤ 'f' then some (c.toNat - 'a'.toNat + 10)
  else if 'A' ≤ c ∧ c ≤ 'F' then some (c.toNat - 'A'.toNat + 10)
  else none

/-- Digit loop of u64::from_str_radix with radix 16: checked multiply-and-add,
failing on a non-digit character or when the value leaves the 64-bit range. -/
def parseHexLoop : List Char → Nat → Option Nat
  | [], acc => some acc
  | c :: rest, acc =>
    match hexDigit? c with
    | none => none
    | some d => if acc * 16 + d < U64 then parseHexLoop rest (acc * 16 + d) else none

/-- u64::from_str_radix(s, 16): empty input fails, a single leading plus sign
is accepted (a lone plus sign fails), and the remaining characters run through
the checked digit loop. -/
def fromStrRadix16 : List Char → Option Nat
  | [] => none
  | c :: rest =>
    if c = '+' then (if rest = [] then none else parseHexLoop rest 0)
    else parseHexLoop (c :: rest) 0

/-- Radix parse result as the source maps it: any parse error becomes
InvalidHexString. -/
def radixResult (s : List Char) : Except CreationError Nat :=
  match fromStrRadix16 s with
  | some v => Except.ok v
  | none => Except.error CreationError.invalidHexString

/-- Source from_hex. The 0x test slices the first two BYTES of the string; when
the string is longer than 2 bytes and byte offset 2 is not a character
boundary, that slicing aborts (modelled by none). A first character of UTF-8
size 2 makes the slice that single character, whose bytes can never equal the
two ASCII bytes of 0x. -/
def from_hex (s : List Char) : Option (Except CreationError Nat) :=
  if 2 < byteLen s then
    match s with
    | [] => some (radixResult [])
    | c1 :: rest1 =>
      if utf8Size c1 = 1 then
        match rest1 with
        | [] => some (radixResult (c1 :: rest1))
        | c2 :: rest2 =>
          if utf8Size c2 = 1 then
            if c1 = '0' ∧ c2 = 'x' then some (radixResult rest2)
            else some (radixResult (c1 :: c2 :: rest2))
          else none
      else if utf8Size c1 = 2 then some (radixResult (c1 :: rest1))
      else none
  else some (radixResult s)

/-- Spec-side accumulator step for the value of a hexadecimal digit string. -/
def hexStep (acc : Nat) (c : Char) : Nat := acc * 16 + (hexDigit? c).getD 0

/-- Spec-side value of a hexadecimal digit string. -/
def hexValCore (s : List Char) : Nat := s.foldl hexStep 0

/-- Spec-side stripping of a single leading plus sign. -/
def stripPlus : List Char → List Char
  | [] => []
  | c :: r => if c = '+' then r else c :: r

/-- Spec-side characterization of u64 base-16 parsing: after an optional single
leading plus sign at least one character must remain, every character must be
a hexadecimal digit, and the value must be below 2^64. -/
def hexSpecVal (s : List Char) : Option Nat :=
  if stripPlus s ≠ [] ∧ (∀ c ∈ stripPlus s, (hexDigit? c).isSome) ∧ hexValCore (stripPlus s) < U64
  then some (hexValCore (stripPlus s)) else none

/-- Spec-side 0x stripping at character level; for ASCII strings this matches
the byte-level test of the source. -/
def strip0x (s : List Char) : List Char :=
  if 2 < s.length ∧ s.take 2 = ['0', 'x'] then s.drop 2 else s

/-- Spec-side description of from_hex on boundary-safe strings. -/
def hexOutcome (s : List Char) : Except CreationError Nat :=
  match hexSpecVal (strip0x s) with
  | some v => Except.ok v
  | none => Except.error CreationError.invalidHexString

/-- Byte offset 2 of the string is a character boundary, or the string is at
most 2 bytes long, so the byte slicing of the 0x test cannot abort: the
boundaries of a string are the running sums of the character sizes, so offset
2 is a boundary exactly when the first character has size 2, or the first two
characters have size 1 each, and a string of at most 2 bytes is never
sliced. -/
def sliceSafe : List Char → Bool
  | [] => true
  | [c1] => decide (utf8Size c1 ≤ 2)
  | c1 :: c2 :: _ => decide (utf8Size c1 = 2) || (decide (utf8Size c1 = 1) && decide (utf8Size c2 = 1))

end GoldilocksField

namespace GoldilocksField

/-- Claim C1 (code_bug evidence): the source test mul_order_minus_1 requires
mul(p - 1, p - 1) = 1, but the native u64 product wraps modulo 2^64, so the
code yields 0, while the mathematical residue of the product is 1. -/
theorem mul_overflows_at_p_minus_one :
    mul (MODULUS - 1) (MODULUS - 1) = 0 ∧
    ((MODULUS - 1) * (MODULUS - 1)) % MODULUS = 1 := by
  constructor <;> decide

/-- Claim C2 (code_bug evidence): at a = b = p - 1 the native u64 sum wraps
modulo 2^64, so add returns 2^64 - 2^33 although the residue of a + b modulo
p is p - 2. -/
theorem add_overflows_at_p_minus_one :
    add (MODULUS - 1) (MODULUS - 1) = 2 ^ 64 - 2 ^ 33 ∧
    ((MODULUS - 1) + (MODULUS - 1)) % MODULUS = MODULUS - 2 := by
  constructor <;> decide

/-- Claim C3 (code_bug evidence): on the canonical inputs a = 2^32 and b = 1
the intermediate a + MODULUS wraps modulo 2^64, so sub returns 0 although the
residue (a + p - b) mod p is 2^32 - 1. -/
theorem sub_overflows_on_canonical_input :
    sub (2 ^ 32) 1 = 0 ∧
    (2 ^ 32 + MODULUS - 1) % MODULUS = 2 ^ 32 - 1 := by
  constructor <;> decide

/-- Claim C7 (code_bug evidence): at a = p + 1 the native u64 difference
MODULUS - a wraps modulo 2^64, so neg returns 2^32 - 2 although the residue of
p - a modulo p is p - 1. -/
theorem neg_underflows_above_modulus :
    neg (MODULUS + 1) = 2 ^ 32 - 2 ∧
    (MODULUS - (MODULUS + 1) % MODULUS) % MODULUS = MODULUS - 1 := by
  constructor <;> decide

/-- Claim C5 (code_bug evidence): on any input shorter than 8 bytes both
decoders abort at the slice bytes[0..8] instead of returning the typed
byte-length error, while 8-byte inputs decode successfully. -/
theorem from_bytes_short_input_aborts :
    from_bytes_be (List.replicate 7 0) = none ∧
    from_bytes_le (List.replicate 7 0) = none ∧
    from_bytes_be (List.replicate 8 0) = some (Except.ok 0) ∧
    from_bytes_le (List.replicate 8 0) = some (Except.ok 0) := by
  exact ⟨rfl, rfl, rfl, rfl⟩

/-- Claim C4 (counterexample): div(5, 0) does not return the zero-inversion
error as a recoverable outcome; the unwrap on the inversion result aborts the
program, modelled by none. -/
theorem div_zero_aborts : div 5 0 = none := rfl

/-- Claim C4 (amended): for a zero divisor div aborts via the unwrap instead of
propagating the zero-inversion error, and for a divisor of nonzero raw value
it returns mul(a, pow(b, p - 2)). -/
theorem div_behavior (a b : Nat) (ha : a < U64) (hb : b < U64) :
    (b = 0 → div a b = none) ∧
    (b ≠ 0 → div a b = some (mul a (pow b (MODULUS - 2)))) := by
  constructor
  · intro h
    subst h
    rfl
  · intro h
    simp [div, inv, h]

/-- Claim C4 (witness): the amended statement evaluated at a = 5, b = 0 and at
a = 4, b = 2. -/
theorem div_behavior_witness :
    (5 < U64 ∧ 0 < U64 ∧
      ((0 = 0 → div 5 0 = none) ∧
       ((0 : Nat) ≠ 0 → div 5 0 = some (mul 5 (pow 0 (MODULUS - 2)))))) ∧
    (4 < U64 ∧ 2 < U64 ∧
      ((2 = 0 → div 4 2 = none) ∧
       ((2 : Nat) ≠ 0 → div 4 2 = some (mul 4 (pow 2 (MODULUS - 2)))))) :=
  ⟨⟨by decide, by decide, div_behavior 5 0 (by decide) (by decide)⟩,
   ⟨by decide, by decide, div_behavior 4 2 (by decide) (by decide)⟩⟩

/-- Claim C6 (counterexample): the unreduced representation p of the zero
element is not detected by inv, whose test compares the raw value with 0; the
call succeeds with the power pow(p, p - 2) instead of failing. -/
theorem inv_unreduced_zero_not_detected :
    inv MODULUS = Except.ok (pow MODULUS (MODULUS - 2)) := by
  simp [inv, MODULUS]

/-- Claim C6 (amended): inv fails with the zero-inversion error exactly when
the raw input is 0; any nonzero raw input, canonical or not, yields
Ok(pow(a, p - 2)) computed with the kernel mul. -/
theorem inv_error_iff_raw_zero (a : Nat) (ha : a < U64) :
    (inv a = Except.error FieldError.invZeroError ↔ a = 0) ∧
    (a ≠ 0 → inv a = Except.ok (pow a (MODULUS - 2))) := by
  refine ⟨⟨fun h => ?_, fun h => ?_⟩, fun h => ?_⟩
  · by_contra hne
    simp [inv, hne] at h
  · subst h
    rfl
  · simp [inv, h]

/-- Recomposing the big-endian bytes of a 64-bit value gives the value back. -/
theorem u64_from_to_be (v : Nat) (h : v < U64) :
    u64_from_be_bytes (u64_to_be_bytes v) = v := by
  simp only [u64_to_be_bytes, u64_from_be_bytes, List.foldl, U64] at h ⊢
  omega

/-- Recomposing the little-endian bytes of a 64-bit value gives the value back. -/
theorem u64_from_to_le (v : Nat) (h : v < U64) :
    u64_from_le_bytes (u64_to_le_bytes v) = v := by
  simp only [u64_to_le_bytes, u64_from_le_bytes, List.foldr, U64] at h ⊢
  omega

/-- Claim C6 (witness): the amended statement evaluated at a = 0 and a = 1. -/
theorem inv_error_iff_raw_zero_witness :
    (0 < U64 ∧
      ((inv 0 = Except.error FieldError.invZeroError ↔ 0 = 0) ∧
       ((0 : Nat) ≠ 0 → inv 0 = Except.ok (pow 0 (MODULUS - 2))))) ∧
    (1 < U64 ∧
      ((inv 1 = Except.error FieldError.invZeroError ↔ 1 = 0) ∧
       ((1 : Nat) ≠ 0 → inv 1 = Except.ok (pow 1 (MODULUS - 2))))) :=
  ⟨⟨by decide, inv_error_iff_raw_zero 0 (by decide)⟩,
   ⟨by decide, inv_error_iff_raw_zero 1 (by decide)⟩⟩

/-- Decoding the big-endian encoding of any 64-bit raw value succeeds with
that value. -/
theorem decode_encode_be (v : Nat) (h : v < U64) :
    from_bytes_be (to_bytes_be v) = some (Except.ok v) := by
  show (if 8 ≤ (to_bytes_be v).length then
      some (Except.ok (u64_from_be_bytes ((to_bytes_be v).take 8))) else none) = _
  rw [if_pos (by exact Nat.le_refl 8)]
  rw [show (to_bytes_be v).take 8 = u64_to_be_bytes v from rfl]
  rw [u64_from_to_be v h]

/-- Decoding the little-endian encoding of any 64-bit raw value succeeds with
that value. -/
theorem decode_encode_le (v : Nat) (h : v < U64) :
    from_bytes_le (to_bytes_le v) = some (Except.ok v) := by
  show (if 8 ≤ (to_bytes_le v).length then
      some (Except.ok (u64_from_le_bytes ((to_bytes_le v).take 8))) else none) = _
  rw [if_pos (by exact Nat.le_refl 8)]
  rw [show (to_bytes_le v).take 8 = u64_to_le_bytes v from rfl]
  rw [u64_from_to_le v h]

/-- Claim C9 (confirmed): for every raw 64-bit value, including values at or
above the modulus, both encoders emit exactly 8 bytes of the raw value and
both decoders invert them. -/
theorem bytes_roundtrip (v : Nat) (h : v < U64) :
    from_bytes_be (to_bytes_be v) = some (Except.ok v) ∧
    from_bytes_le (to_bytes_le v) = some (Except.ok v) ∧
    (to_bytes_be v).length = 8 ∧ (to_bytes_le v).length = 8 :=
  ⟨decode_encode_be v h, decode_encode_le v h, rfl, rfl⟩

/-- Claim C9 (witness): the round trip evaluated at the unreduced raw value
p + 4. -/
theorem bytes_roundtrip_witness :
    MODULUS + 4 < U64 ∧
    (from_bytes_be (to_bytes_be (MODULUS + 4)) = some (Except.ok (MODULUS + 4)) ∧
     from_bytes_le (to_bytes_le (MODULUS + 4)) = some (Except.ok (MODULUS + 4)) ∧
     (to_bytes_be (MODULUS + 4)).length = 8 ∧ (to_bytes_le (MODULUS + 4)).length = 8) :=
  ⟨by decide, bytes_roundtrip (MODULUS + 4) (by decide)⟩

/-- Claim C10 (counterexample): decoding eight 0xff bytes stores the raw value
2^64 - 1, and the representative accessor returns it unreduced, at or above
the modulus, so deserialization does not canonicalize. -/
theorem from_bytes_be_not_canonical :
    from_bytes_be (List.replicate 8 255) = some (Except.ok (U64 - 1)) ∧
    MODULUS ≤ representative (U64 - 1) := by
  exact ⟨rfl, by decide⟩

/-- Claim C10 (amended): canonicalization happens in the raw constructor, whose
result is always below the modulus, while deserialization stores the raw
decoded integer: every 64-bit value, canonical or not, is the exact output of
from_bytes_be on some 8-byte input, and representative returns it unchanged. -/
theorem fromRaw_canonical_decode_raw (v : Nat) (h : v < U64) :
    fromRaw v < MODULUS ∧
    ∃ bs, bs.length = 8 ∧ from_bytes_be bs = some (Except.ok v) ∧
      representative v = v := by
  constructor
  · unfold fromRaw
    split
    · exact Nat.mod_lt _ (by decide)
    · omega
  · exact ⟨to_bytes_be v, rfl, decode_encode_be v h, rfl⟩

/-- Claim C10 (witness): the amended statement evaluated at the non-canonical
raw value 2^64 - 1. -/
theorem fromRaw_canonical_decode_raw_witness :
    U64 - 1 < U64 ∧
    (fromRaw (U64 - 1) < MODULUS ∧
     ∃ bs, bs.length = 8 ∧ from_bytes_be bs = some (Except.ok (U64 - 1)) ∧
       representative (U64 - 1) = U64 - 1) :=
  ⟨by decide, fromRaw_canonical_decode_raw (U64 - 1) (by decide)⟩

/-- One digit step never decreases the accumulator. -/
theorem hexStep_le (acc : Nat) (c : Char) : acc ≤ hexStep acc c := by
  unfold hexStep
  omega

/-- The digit fold never decreases the accumulator. -/
theorem foldl_hexStep_le (l : List Char) : ∀ acc : Nat, acc ≤ l.foldl hexStep acc := by
  induction l with
  | nil => intro acc; exact Nat.le_refl acc
  | cons c rest ih =>
    intro acc
    rw [List.foldl_cons]
    exact Nat.le_trans (hexStep_le acc c) (ih (hexStep acc c))

/-- The checked digit loop succeeds exactly when every character is a digit and
the folded value stays below 2^64, in which case it returns the folded value:
stepwise overflow checking agrees with one check of the final value, because
the fold is monotone in the accumulator. -/
theorem parseHexLoop_eq (l : List Char) : ∀ acc : Nat, acc < U64 →
    parseHexLoop l acc =
      if (∀ c ∈ l, (hexDigit? c).isSome) ∧ l.foldl hexStep acc < U64
      then some (l.foldl hexStep acc) else none := by
  induction l with
  | nil =>
    intro acc h
    simp [parseHexLoop, h]
  | cons c rest ih =>
    intro acc h
    simp only [parseHexLoop]
    cases hd : hexDigit? c with
    | none =>
      simp [hd]
    | some d =>
      have hstep : hexStep acc c = acc * 16 + d := by
        unfold hexStep
        rw [hd]
        rfl
      change (if acc * 16 + d < U64 then parseHexLoop rest (acc * 16 + d) else none) = _
      by_cases hov : acc * 16 + d < U64
      · rw [if_pos hov, ih (acc * 16 + d) hov, List.foldl_cons, hstep]
        simp [hd]
      · rw [if_neg hov, List.foldl_cons, hstep]
        have hmono : U64 ≤ List.foldl hexStep (acc * 16 + d) rest :=
          Nat.le_trans (Nat.le_of_not_lt hov) (foldl_hexStep_le rest (acc * 16 + d))
        rw [if_neg]
        intro hcond
        exact Nat.lt_irrefl U64 (Nat.lt_of_le_of_lt hmono hcond.2)

/-- The implemented radix-16 parse agrees with its declarative
characterization: after an optional single leading plus sign, a nonempty run
of hexadecimal digits whose value fits in 64 bits. -/
theorem fromStrRadix16_eq (s : List Char) : fromStrRadix16 s = hexSpecVal s := by
  cases s with
  | nil =>
    simp [fromStrRadix16, hexSpecVal, stripPlus]
  | cons c rest =>
    by_cases hc : c = '+'
    · subst hc
      cases rest with
      | nil =>
        simp [fromStrRadix16, hexSpecVal, stripPlus]
      | cons r rs =>
        have hlhs : fromStrRadix16 ('+' :: r :: rs) = parseHexLoop (r :: rs) 0 := by
          simp [fromStrRadix16]
        have hsp : stripPlus ('+' :: r :: rs) = r :: rs := by
          simp [stripPlus]
        rw [hlhs, parseHexLoop_eq (r :: rs) 0 (by decide)]
        simp only [hexSpecVal, hsp, hexValCore]
        have hne : r :: rs ≠ [] := List.cons_ne_nil r rs
        simp [hne]
    · have hlhs : fromStrRadix16 (c :: rest) = parseHexLoop (c :: rest) 0 := by
        simp [fromStrRadix16, hc]
      have hsp : stripPlus (c :: rest) = c :: rest := by
        simp [stripPlus, hc]
      rw [hlhs, parseHexLoop_eq (c :: rest) 0 (by decide)]
      simp only [hexSpecVal, hsp, hexValCore]
      have hne : c :: rest ≠ [] := List.cons_ne_nil c rest
      simp [hne]

/-- Every character occupies at least one byte. -/
theorem utf8Size_pos (c : Char) : 1 ≤ utf8Size c := by
  unfold utf8Size
  split
  · omega
  · split
    · omega
    · split
      · omega
      · omega

/-- A nonempty string has positive byte length. -/
theorem byteLen_pos {rest : List Char} (h : rest ≠ []) : 0 < byteLen rest := by
  cases rest with
  | nil => exact absurd rfl h
  | cons c t =>
    have := utf8Size_pos c
    simp only [byteLen, List.map_cons, List.sum_cons]
    omega

/-- Claim C8 (counterexample): on the two-character input consisting of the
letter a followed by the letter e with acute accent, the string is 3 bytes
long but byte offset 2 is not a character boundary, so the byte slicing of the
0x test aborts instead of returning the Invalid-Hex-String error that the
claim requires for this malformed (non-hex) input. -/
theorem from_hex_char_boundary_abort : from_hex ['a', 'é'] = none := rfl

/-- Claim C8 (amended): on every string whose byte offset 2 is a character
boundary, or whose byte length is at most 2 - ASCII or not - the source
from_hex strips an optional 0x marker, checked only when the byte length
exceeds 2, and parses the remainder as base 16 with the checked u64 parser,
returning Invalid-Hex-String exactly when the remainder, after an optional
single leading plus sign accepted by the parser, is empty, holds a non-hex
character, or overflows 64 bits; every string longer than 2 bytes whose byte
offset 2 falls inside a multi-byte character aborts instead. -/
theorem from_hex_boundary_behavior (s : List Char) :
    (sliceSafe s = true → from_hex s = some (hexOutcome s)) ∧
    (sliceSafe s = false → from_hex s = none) := by
  rcases s with _ | ⟨c1, _ | ⟨c2, rest⟩⟩
  · constructor
    · intro _
      rfl
    · intro h
      simp [sliceSafe] at h
  · by_cases hle : utf8Size c1 ≤ 2
    · constructor
      · intro _
        have hb : ¬ 2 < byteLen [c1] := by
          simp only [byteLen, List.map_cons, List.map_nil, List.sum_cons, List.sum_nil]
          omega
        simp only [from_hex]
        rw [if_neg hb]
        have hst : strip0x [c1] = [c1] := by
          simp only [strip0x]
          rw [if_neg]
          intro hcond
          have := hcond.1
          simp at this
        rw [hexOutcome, hst, radixResult, fromStrRadix16_eq]
      · intro h
        simp [sliceSafe, hle] at h
    · constructor
      · intro h
        simp [sliceSafe, hle] at h
      · intro _
        have hb : 2 < byteLen [c1] := by
          simp only [byteLen, List.map_cons, List.map_nil, List.sum_cons, List.sum_nil]
          omega
        have h1 : ¬ utf8Size c1 = 1 := by omega
        have h2 : ¬ utf8Size c1 = 2 := by omega
        simp only [from_hex]
        rw [if_pos hb, if_neg h1, if_neg h2]
  · have hu1pos := utf8Size_pos c1
    have hu2pos := utf8Size_pos c2
    by_cases hA : utf8Size c1 = 1 ∧ utf8Size c2 = 1
    · obtain ⟨h1, h2⟩ := hA
      constructor
      · intro _
        by_cases hbig : 2 < byteLen (c1 :: c2 :: rest)
        · have hrest : rest ≠ [] := by
            intro he
            subst he
            simp only [byteLen, List.map_cons, List.map_nil, List.sum_cons,
              List.sum_nil] at hbig
            omega
          have hlen2 : 2 < (c1 :: c2 :: rest).length := by
            simp only [List.length_cons]
            have := List.length_pos.mpr hrest
            omega
          simp only [from_hex]
          rw [if_pos hbig, if_pos h1, if_pos h2]
          by_cases h0x : c1 = '0' ∧ c2 = 'x'
          · rw [if_pos h0x]
            obtain ⟨e1, e2⟩ := h0x
            subst e1
            subst e2
            have hst : strip0x ('0' :: 'x' :: rest) = rest := by
              simp only [strip0x]
              rw [if_pos ⟨hlen2, rfl⟩]
              rfl
            rw [hexOutcome, hst, radixResult, fromStrRadix16_eq]
          · rw [if_neg h0x]
            have hst : strip0x (c1 :: c2 :: rest) = c1 :: c2 :: rest := by
              simp only [strip0x]
              rw [if_neg]
              intro hcond
              apply h0x
              have ht := hcond.2
              simp only [List.take] at ht
              exact ⟨(List.cons.injEq _ _ _ _).mp ht |>.1,
                     ((List.cons.injEq _ _ _ _).mp ((List.cons.injEq _ _ _ _).mp ht).2).1⟩
            rw [hexOutcome, hst, radixResult, fromStrRadix16_eq]
        · simp only [from_hex]
          rw [if_neg hbig]
          have hrest : rest = [] := by
            by_contra hne
            apply hbig
            have hp := byteLen_pos hne
            simp only [byteLen, List.map_cons, List.sum_cons] at hp ⊢
            omega
          subst hrest
          have hst : strip0x [c1, c2] = [c1, c2] := by
            simp only [strip0x]
            rw [if_neg]
            intro hcond
            have := hcond.1
            simp at this
          rw [hexOutcome, hst, radixResult, fromStrRadix16_eq]
      · intro hfalse
        simp [sliceSafe, h1, h2] at hfalse
    · by_cases hB : utf8Size c1 = 2
      · constructor
        · intro _
          have hbig : 2 < byteLen (c1 :: c2 :: rest) := by
            simp only [byteLen, List.map_cons, List.sum_cons]
            omega
          have h1ne : ¬ utf8Size c1 = 1 := by omega
          simp only [from_hex]
          rw [if_pos hbig, if_neg h1ne, if_pos hB]
          have hst : strip0x (c1 :: c2 :: rest) = c1 :: c2 :: rest := by
            simp only [strip0x]
            rw [if_neg]
            intro hcond
            have ht := hcond.2
            simp only [List.take] at ht
            have hc1 : c1 = '0' := (List.cons.injEq _ _ _ _).mp ht |>.1
            rw [hc1] at hB
            exact absurd hB (by decide)
          rw [hexOutcome, hst, radixResult, fromStrRadix16_eq]
        · intro hfalse
          simp [sliceSafe, hB] at hfalse
      · constructor
        · intro htrue
          simp [sliceSafe, hB] at htrue
          exact absurd htrue hA
        · intro _
          by_cases h1 : utf8Size c1 = 1
          · have h2ne : ¬ utf8Size c2 = 1 := fun h2 => hA ⟨h1, h2⟩
            have hbig : 2 < byteLen (c1 :: c2 :: rest) := by
              simp only [byteLen, List.map_cons, List.sum_cons]
              omega
            simp only [from_hex]
            rw [if_pos hbig, if_pos h1, if_neg h2ne]
          · have hbig : 2 < byteLen (c1 :: c2 :: rest) := by
              simp only [byteLen, List.map_cons, List.sum_cons]
              omega
            simp only [from_hex]
            rw [if_pos hbig, if_neg h1, if_neg hB]

/-- Claim C8 (witness): the amended statement evaluated at the boundary-safe
non-ASCII input 0x followed by the euro sign, at the boundary-safe ASCII input
0x10, and at the non-boundary input of the letter a followed by the capital A
with macron. -/
theorem from_hex_boundary_behavior_witness :
    (sliceSafe ['0', 'x', '€'] = true ∧
     from_hex ['0', 'x', '€'] = some (hexOutcome ['0', 'x', '€'])) ∧
    (sliceSafe ['0', 'x', '1', '0'] = true ∧
     from_hex ['0', 'x', '1', '0'] = some (hexOutcome ['0', 'x', '1', '0'])) ∧
    (sliceSafe ['a', 'Ā'] = false ∧ from_hex ['a', 'Ā'] = none) :=
  ⟨⟨rfl, (from_hex_boundary_behavior ['0', 'x', '€']).1 rfl⟩,
   ⟨rfl, (from_hex_boundary_behavior ['0', 'x', '1', '0']).1 rfl⟩,
   ⟨rfl, (from_hex_boundary_behavior ['a', 'Ā']).2 rfl⟩⟩

end GoldilocksField
